import Mathlib

/-!
# Verification of the audit-cli testable-code classification core

Shallow embedding of the directive-and-context-propagation engine of
`commands/report/testable-code` (csv_parser.go, types.go) together with the
`internal/language`, `internal/projectinfo` and `internal/snooty` helpers it
uses.  Go strings become Lean `String`, Go `map[string]string` becomes an
association list with Go-map insert/lookup semantics, Go `map[string]bool`
allow-lists become membership lists, and the recursive inclusion walker is
embedded with an explicit fuel parameter (fuel exhaustion returns `none`;
fuel sufficiency for every finite file system is proved).
-/

/-! ## Go string primitives -/

/-- Whether a character counts as whitespace for `strings.TrimSpace` /
regex `\s` purposes (scanner lines never contain newlines). -/
def isSpaceChar (c : Char) : Bool := c = ' ' || c = '\t'

/-- `strings.TrimLeft(line, " ")`: remove leading space characters only. -/
def goTrimLeftSpaces (s : String) : String := ⟨s.data.dropWhile (· = ' ')⟩

/-- `strings.TrimSpace`: remove leading and trailing whitespace. -/
def goTrimSpace (s : String) : String :=
  ⟨((s.data.dropWhile isSpaceChar).reverse.dropWhile isSpaceChar).reverse⟩

/-- `strings.ToLower` (ASCII case folding, as used on language tags). -/
def goToLower (s : String) : String := ⟨s.data.map Char.toLower⟩

/-- `strings.Contains`: substring containment on the underlying char lists. -/
def listContainsSub (needle : List Char) : List Char → Bool
  | [] => needle.isEmpty
  | c :: cs => needle.isPrefixOf (c :: cs) || listContainsSub needle cs

/-- `strings.Contains(s, sub)`. -/
def goContains (s sub : String) : Bool := listContainsSub sub.data s.data

/-- `strings.HasPrefix(s, p)` on char lists. -/
def stripStr (p : String) (cs : List Char) : Option (List Char) :=
  if p.data.isPrefixOf cs then some (cs.drop p.data.length) else none

/-- First character test: does the string start with the given character? -/
def startsWithChar (s : String) (c : Char) : Bool :=
  match s.data with
  | [] => false
  | c' :: _ => c' = c

/-! ## Go map semantics

A Go `map[string]string` is modelled as an association list whose keys are
kept unique by `mapInsert` (delete-then-append), so `mapLookup` (first match)
agrees with Go map lookup. -/

def mapLookup (m : List (String × String)) (k : String) : Option String :=
  (m.find? (fun e => e.1 = k)).map (·.2)

def mapInsert (m : List (String × String)) (k v : String) : List (String × String) :=
  (m.filter (fun e => ¬ e.1 = k)) ++ [(k, v)]

/-- Whether a key list is duplicate-free — the invariant every Go map enjoys. -/
def keysNodup (m : List (String × String)) : Prop := (m.map Prod.fst).Nodup

/-! ## internal/language (src/unnamed/part_009) -/

namespace lang

def Undefined : String := "undefined"

/-- `GetLanguageFromExtension`: map a file path's extension to a language.
`filepath.Ext` takes the suffix of the final path element from its last dot. -/
def filepathExt (path : String) : String :=
  let base := (path.data.reverse.takeWhile (· ≠ '/')).reverse
  let revBase := base.reverse
  let pre := revBase.takeWhile (· ≠ '.')
  if pre.length < revBase.length then ⟨'.' :: pre.reverse⟩ else ""

def extensionMap : List (String × String) :=
  [(".py", "python"), (".js", "javascript"), (".ts", "typescript"),
   (".go", "go"), (".java", "java"), (".cs", "csharp"), (".cpp", "cpp"),
   (".c", "c"), (".rb", "ruby"), (".rs", "rust"), (".swift", "swift"),
   (".kt", "kotlin"), (".scala", "scala"), (".sh", "shell"), (".bash", "shell"),
   (".ps1", "powershell"), (".json", "json"), (".yaml", "yaml"), (".yml", "yaml"),
   (".xml", "xml"), (".html", "html"), (".css", "css"), (".sql", "sql"),
   (".txt", "text"), (".php", "php")]

def GetLanguageFromExtension (filePath : String) : String :=
  let ext := goToLower (filepathExt filePath)
  match mapLookup extensionMap ext with
  | some l => l
  | none => ""

def normalizeMap : List (String × String) :=
  [("bash", "bash"), ("c", "c"), ("cpp", "cpp"), ("csharp", "csharp"),
   ("console", "console"), ("css", "css"), ("go", "go"), ("html", "html"),
   ("java", "java"), ("javascript", "javascript"), ("json", "json"),
   ("kotlin", "kotlin"), ("php", "php"), ("powershell", "powershell"),
   ("ps5", "ps5"), ("python", "python"), ("ruby", "ruby"), ("rust", "rust"),
   ("scala", "scala"), ("shell", "shell"), ("sql", "sql"), ("swift", "swift"),
   ("text", "text"), ("typescript", "typescript"), ("xml", "xml"),
   ("yaml", "yaml"), ("c++", "cpp"), ("c#", "csharp"), ("cs", "csharp"),
   ("golang", "go"), ("js", "javascript"), ("kt", "kotlin"), ("py", "python"),
   ("rb", "ruby"), ("rs", "rust"), ("sh", "shell"), ("ts", "typescript"),
   ("txt", "text"), ("ps1", "powershell"), ("yml", "yaml"),
   ("", "undefined"), ("none", "undefined")]

/-- `Normalize`: canonicalize a language tag (lower-case + alias table). -/
def Normalize (language : String) : String :=
  let l := goToLower (goTrimSpace language)
  match mapLookup normalizeMap l with
  | some n => n
  | none => l

/-- `Resolve`: language fallback chain
argument > `:language:` option > file extension > `"undefined"`. -/
def Resolve (languageArg languageOption filePath : String) : String :=
  let l := languageArg
  let l := if l = "" then languageOption else l
  let l := if l = "" ∧ filePath ≠ "" then GetLanguageFromExtension filePath else l
  let l := if l = "" then Undefined else l
  Normalize l

def LanguageToProduct : List (String × String) :=
  [("python", "Python"), ("javascript", "JavaScript"), ("js", "JavaScript"),
   ("typescript", "TypeScript"), ("ts", "TypeScript"), ("go", "Go"),
   ("golang", "Go"), ("java", "Java"), ("csharp", "C#"), ("c#", "C#"),
   ("cs", "C#"), ("cpp", "C++"), ("c++", "C++"), ("c", "C"),
   ("ruby", "Ruby"), ("rb", "Ruby"), ("rust", "Rust"), ("rs", "Rust"),
   ("swift", "Swift"), ("kotlin", "Kotlin"), ("kt", "Kotlin"),
   ("scala", "Scala"), ("php", "PHP"), ("mongosh", "MongoDB Shell"),
   ("bash", "Shell"), ("sh", "Shell"), ("shell", "Shell"),
   ("console", "Shell"), ("powershell", "PowerShell"), ("ps1", "PowerShell"),
   ("json", "JSON"), ("yaml", "YAML"), ("yml", "YAML"), ("xml", "XML"),
   ("html", "HTML"), ("css", "CSS"), ("sql", "SQL"), ("ini", "INI"),
   ("toml", "TOML"), ("properties", "Properties"), ("text", "Text"),
   ("txt", "Text"), ("none", "Text")]

/-- `GetProductFromLanguage`: display name for a language tag, or the tag
itself when unmapped. -/
def GetProductFromLanguage (l : String) : String :=
  match mapLookup LanguageToProduct (goToLower (goTrimSpace l)) with
  | some p => p
  | none => l

/-- `NonDriverLanguages`: languages that never inherit tab/composable
context. -/
def NonDriverLanguages : List String :=
  ["bash", "sh", "console", "text", "json", "yaml", "xml", "ini", "toml",
   "properties", "sql", "none", "http"]

def IsNonDriverLanguage (language : String) : Bool :=
  NonDriverLanguages.contains (goToLower (goTrimSpace language))

/-- `MongoShellLanguages`: languages that can denote MongoDB Shell code. -/
def MongoShellLanguages : List String := ["shell", "javascript", "js"]

def IsMongoShellLanguage (language : String) : Bool :=
  MongoShellLanguages.contains (goToLower (goTrimSpace language))

end lang

/-! ## internal/projectinfo -/

namespace projectinfo

def ContentDirToProduct : List (String × String) :=
  [("c-driver", "C"), ("cpp-driver", "C++"), ("csharp", "C#"),
   ("golang", "Go"), ("java", "Java (Sync)"),
   ("java-rs", "Java (Reactive Streams)"), ("kotlin", "Kotlin (Coroutine)"),
   ("kotlin-sync", "Kotlin (Sync)"), ("laravel-mongodb", "Laravel"),
   ("mongodb-shell", "MongoDB Shell"), ("node", "Node.js"),
   ("php-library", "PHP"), ("pymongo-arrow", "PyMongo Arrow"),
   ("pymongo-driver", "Python"), ("ruby-driver", "Ruby"), ("rust", "Rust"),
   ("scala-driver", "Scala"), ("swift", "Swift")]

def GetProductFromContentDir (contentDir : String) : String :=
  match mapLookup ContentDirToProduct contentDir with
  | some p => p
  | none => ""

end projectinfo

/-! ## Data model (testable-code types.go and csv_parser.go) -/

inductive DirectiveType
  | literalInclude
  | codeBlock
  | ioCodeBlock
  | yamlCodeBlock
  deriving DecidableEq, Repr

structure SubDirective where
  Argument : String := ""
  Options : List (String × String) := []
  Content : String := ""
  deriving DecidableEq, Repr

structure Directive where
  Dtype : DirectiveType
  Argument : String := ""
  Options : List (String × String) := []
  InputDirective : Option SubDirective := none
  OutputDirective : Option SubDirective := none
  LineNum : Nat := 0
  deriving DecidableEq, Repr

structure CodeContext where
  TabID : String := ""
  Composable : String := ""
  Interface : String := ""
  Language : String := ""
  deriving DecidableEq, Repr

structure CodeExample where
  Etype : String := ""
  Language : String := ""
  Product : String := ""
  IsInput : Bool := false
  IsOutput : Bool := false
  IsTested : Bool := false
  IsTestable : Bool := false
  IsMaybeTestable : Bool := false
  FilePath : String := ""
  SourceFile : String := ""
  deriving DecidableEq, Repr

structure ProductMappings where
  DriversTabIDToProduct : List (String × String) := []
  ComposableLanguageToProduct : List (String × String) := []
  ComposableInterfaceToProduct : List (String × String) := []
  deriving DecidableEq, Repr

/-- `TestableProducts` allow-list (map-to-bool with only `true` entries). -/
def TestableProducts : List String :=
  ["C#", "csharp", "Go", "go", "Java", "Java (Sync)", "java", "java-sync",
   "Node.js", "nodejs", "Python", "python", "MongoDB Shell", "mongosh"]

/-- `MaybeTestableProducts` grey-list. -/
def MaybeTestableProducts : List String := ["JavaScript", "Shell"]

/-! ## Classifier (csv_parser.go) -/

/-- `getLanguage`: `:language:` option first, then `defaultLang`, then
`lang.Undefined`. -/
def getLanguage (directive : Directive) (defaultLang : String) : String :=
  match mapLookup directive.Options "language" with
  | some langOpt =>
    if langOpt ≠ "" then langOpt
    else if defaultLang ≠ "" then defaultLang else lang.Undefined
  | none =>
    if defaultLang ≠ "" then defaultLang else lang.Undefined

/-- `isTestedPath`: the path references tested code. -/
def isTestedPath (path : String) : Bool := goContains path "/tested/"

def isTestable (product : String) (_contentDir : String) : Bool :=
  TestableProducts.contains product

def isMaybeTestable (product : String) : Bool :=
  MaybeTestableProducts.contains product

/-- `isMongoShellContext`: mongodb-shell content dir, or a context whose
interface is mongosh. -/
def isMongoShellContext (contentDir : String) (contexts : List CodeContext) : Bool :=
  contentDir = "mongodb-shell" || contexts.any (fun ctx => ctx.Interface = "mongosh")

/-- The per-context lookup step of `determineProduct`'s context loop. -/
def contextHit (ctx : CodeContext) (mappings : ProductMappings) : Option String :=
  (if ctx.TabID ≠ "" then mapLookup mappings.DriversTabIDToProduct ctx.TabID else none).orElse
  (fun _ => (if ctx.Language ≠ "" then mapLookup mappings.ComposableLanguageToProduct ctx.Language else none).orElse
  (fun _ => if ctx.Interface ≠ "" then mapLookup mappings.ComposableInterfaceToProduct ctx.Interface else none))

/-- The context loop of `determineProduct`: first context with a mapping hit. -/
def contextProduct (contexts : List CodeContext) (mappings : ProductMappings) : Option String :=
  match contexts with
  | [] => none
  | ctx :: rest =>
    match contextHit ctx mappings with
    | some p => some p
    | none => contextProduct rest mappings

/-- Steps 4–7 of `determineProduct`: context loop, content-directory table,
raw-language table, `"Unknown"`. -/
def determineProductTail (language contentDir : String) (contexts : List CodeContext)
    (mappings : ProductMappings) : String :=
  match contextProduct contexts mappings with
  | some p => p
  | none =>
    let fromDir := projectinfo.GetProductFromContentDir contentDir
    if fromDir ≠ "" then fromDir
    else if language ≠ "" then lang.GetProductFromLanguage language
    else "Unknown"

/-- `determineProduct`: the layered product-classification policy. -/
def determineProduct (language contentDir : String) (contexts : List CodeContext)
    (mappings : ProductMappings) : String :=
  if language ≠ "" ∧ lang.IsNonDriverLanguage language then
    lang.GetProductFromLanguage language
  else
    let inMongoShellContext := isMongoShellContext contentDir contexts
    if language ≠ "" ∧ lang.IsMongoShellLanguage language then
      if inMongoShellContext then "MongoDB Shell"
      else if goToLower language = "shell" then "Shell"
      else determineProductTail language contentDir contexts mappings
    else determineProductTail language contentDir contexts mappings

/-! ## Directive / option line matchers (internal/rst regexes)

The directive regexes live in src (unnamed part of package rst); each is an
anchored pattern `^\.\.\s+<name>...`.  They are translated into character-list
matchers below. -/

/-- `strings.HasPrefix`. -/
def strStartsWith (s p : String) : Bool := p.data.isPrefixOf s.data

/-- Match `^\.\.\s+<name>` and return the remainder after `<name>`. -/
def dotDotDirectiveRest (name : String) (cs : List Char) : Option (List Char) :=
  match stripStr ".." cs with
  | none => none
  | some r =>
    match r with
    | [] => none
    | c :: _ =>
      if isSpaceChar c then stripStr name (r.dropWhile (fun c => isSpaceChar c))
      else none

/-- `TabDirectiveRegex`: `^\.\.\s+tab::\s*(.*)$`. -/
def tabDirectiveMatch (s : String) : Bool :=
  (dotDotDirectiveRest "tab::" s.data).isSome

/-- `SelectedContentDirectiveRegex`: `^\.\.\s+selected-content::`. -/
def selectedContentDirectiveMatch (s : String) : Bool :=
  (dotDotDirectiveRest "selected-content::" s.data).isSome

/-- `ComposableTutorialDirectiveRegex`: `^\.\.\s+composable-tutorial::`. -/
def composableTutorialDirectiveMatch (s : String) : Bool :=
  (dotDotDirectiveRest "composable-tutorial::" s.data).isSome

/-- `IncludeDirectiveRegex`: `^\.\.\s+include::\s+(.+)$` with its capture
(leftmost-greedy: the capture is the text after the maximal whitespace run,
or the last whitespace character when nothing follows it). -/
def includeDirectiveCapture (s : String) : Option String :=
  match dotDotDirectiveRest "include::" s.data with
  | none => none
  | some r =>
    let ws := r.takeWhile isSpaceChar
    let rest := r.dropWhile isSpaceChar
    if ws.isEmpty then none
    else if ¬ rest.isEmpty then some ⟨rest⟩
    else if 2 ≤ ws.length then some ⟨[ws.reverse.headD ' ']⟩
    else none

/-- Modelled from the spec: `TabIDOptionRegex`, `SelectionsOptionRegex` and
`OptionsOptionRegex` are used by the trackers but their definitions are not
under src.  Per the spec's option grammar `:key: value` each is modelled as
`^\s*<key>\s*(.+)$`; the captured value (here: the full remainder after the
key) is trimmed by every caller, which makes the two readings of the capture
group coincide. -/
def optionCapture (key : String) (line : String) : Option String :=
  match stripStr key (line.data.dropWhile isSpaceChar) with
  | none => none
  | some rest => if rest.isEmpty then none else some ⟨rest⟩

def tabIDOptionCapture (line : String) : Option String := optionCapture ":tabid:" line

def selectionsOptionCapture (line : String) : Option String := optionCapture ":selections:" line

def optionsOptionCapture (line : String) : Option String := optionCapture ":options:" line

/-! ## Context Block Tracker (`parseContextBlocks`, csv_parser.go 311–396) -/

structure ContextBlockRec where
  context : CodeContext := {}
  startLine : Nat := 0
  endLine : Nat := 0
  deriving DecidableEq, Repr

structure OpenBlock where
  context : CodeContext := {}
  start : Nat := 0
  indent : Nat := 0
  deriving DecidableEq, Repr

/-- The index-driven closing loop (csv_parser.go 339–349): iterate `i` from the
top of `openBlocks` down; a block whose opening indentation is ≥ the current
line's indentation is appended to the closed list with `endLine = lineNum - 1`
and the stack is truncated to `openBlocks[:i]`. -/
def closeLoopGo (ind lineNum : Nat) : Nat → List OpenBlock → List ContextBlockRec →
    List OpenBlock × List ContextBlockRec
  | 0, obs, closed => (obs, closed)
  | i + 1, obs, closed =>
    let ob := obs.getD i {}
    if i < obs.length ∧ ind ≤ ob.indent then
      closeLoopGo ind lineNum i (obs.take i)
        (closed ++ [{ context := ob.context, startLine := ob.start, endLine := lineNum - 1 }])
    else
      closeLoopGo ind lineNum i obs closed

/-- Update the most recent open block (`openBlocks[len(openBlocks)-1]`). -/
def updateLast (f : OpenBlock → OpenBlock) : List OpenBlock → List OpenBlock
  | [] => []
  | [ob] => [f ob]
  | ob :: rest => ob :: updateLast f rest

structure PCBState where
  blocks : List ContextBlockRec := []
  openBlocks : List OpenBlock := []
  deriving DecidableEq, Repr

/-- One scanner iteration of `parseContextBlocks`. -/
def parseContextBlocksLine (st : PCBState) (lineNum : Nat) (line : String) : PCBState :=
  let trimmed := goTrimLeftSpaces line
  let trimmedLine := goTrimSpace line
  let indent := line.length - trimmed.length
  let st :=
    if trimmedLine ≠ "" ∧ ¬ strStartsWith trimmedLine ":" then
      let (obs, closedNew) := closeLoopGo indent lineNum st.openBlocks.length st.openBlocks []
      { blocks := st.blocks ++ closedNew, openBlocks := obs }
    else st
  if tabDirectiveMatch trimmedLine then
    { st with openBlocks := st.openBlocks ++ [{ context := {}, start := lineNum, indent := indent }] }
  else if selectedContentDirectiveMatch trimmedLine then
    { st with openBlocks := st.openBlocks ++ [{ context := {}, start := lineNum, indent := indent }] }
  else if ¬ st.openBlocks.isEmpty then
    match tabIDOptionCapture line with
    | some v =>
      { st with openBlocks :=
          updateLast (fun ob => { ob with context := { ob.context with TabID := goTrimSpace v } }) st.openBlocks }
    | none =>
      match selectionsOptionCapture line with
      | some v =>
        { st with openBlocks :=
            updateLast (fun ob => { ob with context := { ob.context with Language := goTrimSpace v } }) st.openBlocks }
      | none => st
  else st

def parseContextBlocksRun (lines : List String) : PCBState × Nat :=
  lines.foldl (fun (p : PCBState × Nat) line => (parseContextBlocksLine p.1 (p.2 + 1) line, p.2 + 1))
    ({}, 0)

/-- `parseContextBlocks` over the file's lines; blocks still open at end of
file are closed with `endLine` = the last line number. -/
def parseContextBlocks (lines : List String) : List ContextBlockRec :=
  let (st, lineNum) := parseContextBlocksRun lines
  st.blocks ++ st.openBlocks.map (fun ob =>
    { context := ob.context, startLine := ob.start, endLine := lineNum })

/-! ## Context Resolver (`findContextForLine`, csv_parser.go 398–413) -/

def contextNonEmpty (c : CodeContext) : Bool :=
  c.TabID ≠ "" || c.Language ≠ "" || c.Interface ≠ ""

def findContextForLine (lineNum : Nat) (contextBlocks : List ContextBlockRec)
    (fileContext : List CodeContext) : List CodeContext :=
  match contextBlocks with
  | [] => fileContext
  | block :: rest =>
    if block.startLine ≤ lineNum ∧ lineNum ≤ block.endLine ∧ contextNonEmpty block.context then
      [block.context]
    else findContextForLine lineNum rest fileContext

/-! ## Directive language resolution and `processDirective` -/

/-- Modelled from the spec: `rst.Directive.ResolveLanguage` is called by
`processDirective` but its definition is not under src (only its unit tests
are).  Per the spec's precedence chain and those tests it applies
`language.Resolve`, passing the directive argument as the explicit language
for code-block-style directives and as the file path for literalinclude. -/
def Directive.ResolveLanguage (d : Directive) : String :=
  let langOpt := (mapLookup d.Options "language").getD ""
  match d.Dtype with
  | .literalInclude => lang.Resolve "" langOpt d.Argument
  | _ => lang.Resolve d.Argument langOpt ""

/-- Modelled from the spec: `rst.SubDirective.ResolveLanguage` is not under
src (only its unit tests are); it resolves the sub-directive's own
`:language:` option, falling back to the parent's, with the sub-directive
argument as the file path for extension inference. -/
def SubDirective.ResolveLanguage (s : SubDirective) (parentOptions : List (String × String)) : String :=
  let own := (mapLookup s.Options "language").getD ""
  let langOpt := if own = "" then (mapLookup parentOptions "language").getD "" else own
  lang.Resolve "" langOpt s.Argument

/-- `processDirective`: convert an RST directive into CodeExample records. -/
def processDirective (directive : Directive) (sourceFile contentDir : String)
    (contexts : List CodeContext) (mappings : ProductMappings) : List CodeExample :=
  match directive.Dtype with
  | .literalInclude =>
    let language := directive.ResolveLanguage
    let product := determineProduct language contentDir contexts mappings
    [{ Etype := "literalinclude", FilePath := directive.Argument, SourceFile := sourceFile,
       Language := language, IsTested := isTestedPath directive.Argument, Product := product,
       IsTestable := isTestable product contentDir, IsMaybeTestable := isMaybeTestable product }]
  | .codeBlock =>
    let language := getLanguage directive directive.Argument
    let product := determineProduct language contentDir contexts mappings
    [{ Etype := "code-block", SourceFile := sourceFile, Language := language, Product := product,
       IsTestable := isTestable product contentDir, IsMaybeTestable := isMaybeTestable product }]
  | .ioCodeBlock =>
    let inputExs : List CodeExample :=
      match directive.InputDirective with
      | none => []
      | some sub =>
        let language := sub.ResolveLanguage directive.Options
        let product := determineProduct language contentDir contexts mappings
        [{ Etype := "io-code-block", IsInput := true, FilePath := sub.Argument,
           SourceFile := sourceFile, Language := language, IsTested := isTestedPath sub.Argument,
           Product := product, IsTestable := isTestable product contentDir,
           IsMaybeTestable := isMaybeTestable product }]
    let outputExs : List CodeExample :=
      match directive.OutputDirective with
      | none => []
      | some sub =>
        let language := sub.ResolveLanguage directive.Options
        let product := determineProduct language contentDir contexts mappings
        [{ Etype := "io-code-block", IsOutput := true, FilePath := sub.Argument,
           SourceFile := sourceFile, Language := language, IsTested := isTestedPath sub.Argument,
           Product := product, IsTestable := isTestable product contentDir,
           IsMaybeTestable := isMaybeTestable product }]
    inputExs ++ outputExs
  | .yamlCodeBlock =>
    let language := getLanguage directive directive.Argument
    let product := determineProduct language contentDir contexts mappings
    [{ Etype := "yaml-code-block", SourceFile := sourceFile, Language := language,
       Product := product, IsTestable := isTestable product contentDir,
       IsMaybeTestable := isMaybeTestable product }]

/-! ## Include-to-selector map (`parseSelectedContentBlocks`, csv_parser.go 693–782) -/

structure SCBState where
  result : List (String × String) := []
  currentSelection : String := ""
  currentTabID : String := ""
  inSelectedContent : Bool := false
  inTab : Bool := false
  blockIndent : Nat := 0
  deriving DecidableEq, Repr

/-- One scanner iteration of `parseSelectedContentBlocks`.  `resolveIncl`
stands for `rst.ResolveIncludePath filePath` (an I/O collaborator not under
src); `none` models a resolution error. -/
def parseSelectedContentBlocksLine (resolveIncl : String → Option String)
    (st : SCBState) (line : String) : SCBState :=
  let trimmed := goTrimLeftSpaces line
  let trimmedLine := goTrimSpace line
  let indent := line.length - trimmed.length
  if selectedContentDirectiveMatch trimmedLine then
    { st with inSelectedContent := true, inTab := false, blockIndent := indent,
              currentSelection := "" }
  else if tabDirectiveMatch trimmedLine then
    { st with inTab := true, inSelectedContent := false, blockIndent := indent,
              currentTabID := "" }
  else
    match (if st.inSelectedContent ∧ st.currentSelection = "" then selectionsOptionCapture line else none) with
    | some v => { st with currentSelection := goTrimSpace v }
    | none =>
      match (if st.inTab ∧ st.currentTabID = "" then tabIDOptionCapture line else none) with
      | some v => { st with currentTabID := goTrimSpace v }
      | none =>
        let st :=
          if trimmedLine ≠ "" ∧ indent ≤ st.blockIndent ∧ ¬ strStartsWith trimmed ":" then
            if strStartsWith trimmed ".." then
              if ¬ selectedContentDirectiveMatch trimmedLine ∧ ¬ tabDirectiveMatch trimmedLine then
                { st with inSelectedContent := false, inTab := false,
                          currentSelection := "", currentTabID := "" }
              else st
            else st
          else st
        match includeDirectiveCapture trimmedLine with
        | some cap =>
          let includePath := goTrimSpace cap
          match resolveIncl includePath with
          | some resolvedPath =>
            if st.inSelectedContent ∧ st.currentSelection ≠ "" then
              { st with result := mapInsert st.result resolvedPath st.currentSelection }
            else if st.inTab ∧ st.currentTabID ≠ "" then
              { st with result := mapInsert st.result resolvedPath st.currentTabID }
            else st
          | none => st
        | none => st

def parseSelectedContentBlocks (resolveIncl : String → Option String)
    (lines : List String) : List (String × String) :=
  (lines.foldl (parseSelectedContentBlocksLine resolveIncl) {}).result

/-! ## File-level contexts (`parseFileContexts` / `parseComposableOptions`) -/

/-- `parseComposableOptions`: parse `"language=python; interface=driver"`. -/
def parseComposableOptions (options : String) : CodeContext :=
  (options.splitOn ";").foldl (fun ctx part =>
    let kv := goTrimSpace part
    let pre := kv.data.takeWhile (· ≠ '=')
    let rest := kv.data.dropWhile (· ≠ '=')
    match rest with
    | [] => ctx
    | _ :: value =>
      let key : String := goTrimSpace ⟨pre⟩
      let v : String := goTrimSpace ⟨value⟩
      let ctx := if goContains key "language" || goContains key "lang" then
                   { ctx with Language := v } else ctx
      if goContains key "interface" then { ctx with Interface := v } else ctx) {}

/-- The inner scanner loop of `parseFileContexts`: consume following lines
until a blank line, a captured option, or a non-option line. -/
def scanForOption (capture : String → Option String) : List String →
    Option String × List String
  | [] => (none, [])
  | nextLine :: rest =>
    if goTrimSpace nextLine = "" then (none, rest)
    else
      match capture nextLine with
      | some v => (some v, rest)
      | none =>
        if ¬ strStartsWith (goTrimSpace nextLine) ":" then (none, rest)
        else scanForOption capture rest

theorem scanForOption_length (capture : String → Option String) (l : List String) :
    (scanForOption capture l).2.length ≤ l.length := by
  induction l with
  | nil => simp [scanForOption]
  | cons x rest ih =>
    simp only [scanForOption]
    split
    · simp
    · split
      · simp
      · split
        · simp
        · exact le_trans ih (Nat.le_succ _)

/-- The outer scanner loop of `parseFileContexts`. -/
def parseFileContextsLoop : List String → List CodeContext → List CodeContext
  | [], contexts => contexts
  | line :: rest, contexts =>
    let trimmedLine := goTrimSpace line
    if tabDirectiveMatch trimmedLine then
      let s := scanForOption tabIDOptionCapture rest
      let contexts := match s.1 with
        | some tabID => contexts ++ [{ TabID := goTrimSpace tabID }]
        | none => contexts
      parseFileContextsLoop s.2 contexts
    else if composableTutorialDirectiveMatch trimmedLine then
      let s := scanForOption optionsOptionCapture rest
      let contexts := match s.1 with
        | some opts => contexts ++ [parseComposableOptions opts]
        | none => contexts
      parseFileContextsLoop s.2 contexts
    else parseFileContextsLoop rest contexts
termination_by l _ => l.length
decreasing_by
  · exact Nat.lt_succ_of_le (scanForOption_length _ _)
  · exact Nat.lt_succ_of_le (scanForOption_length _ _)
  · exact Nat.lt_succ_of_le (Nat.le_refl _)

def parseFileContexts (lines : List String) : List CodeContext :=
  let contexts := parseFileContextsLoop lines []
  if contexts.isEmpty then [{}] else contexts

/-! ## Mapping Merger (internal/snooty + `MergeProjectComposables`) -/

namespace snooty

structure ComposableOption where
  ID : String := ""
  Title : String := ""
  deriving DecidableEq, Repr

structure Composable where
  ID : String := ""
  Title : String := ""
  Options : List ComposableOption := []
  deriving DecidableEq, Repr

structure Config where
  Name : String := ""
  Composables : List Composable := []
  deriving DecidableEq, Repr

/-- `snooty.BuildComposableIDToTitleMap`: option-ID → title map of the
composables whose ID equals `composableID`. -/
def BuildComposableIDToTitleMap (composables : List Composable) (composableID : String) :
    List (String × String) :=
  composables.foldl (fun result comp =>
    if comp.ID = composableID then
      comp.Options.foldl (fun r opt => mapInsert r opt.ID opt.Title) result
    else result) []

end snooty

/-- `for k, v := range m { dst[k] = v }` into an empty map. -/
def copyMap (m : List (String × String)) : List (String × String) :=
  m.foldl (fun r e => mapInsert r e.1 e.2) []

/-- `for k, v := range proj { base[k] = v }`. -/
def overlayMap (base proj : List (String × String)) : List (String × String) :=
  proj.foldl (fun r e => mapInsert r e.1 e.2) base

/-- `MergeProjectComposables` (types.go 224–289).  The manifest discovery,
parse and cache (`FindProjectSnootyTOML`, `ParseFile`, `snootyCache`) are I/O
collaborators; they are modelled by the `manifest` argument, with `none`
standing for "no snooty.toml found" or "failed to parse". -/
def MergeProjectComposables (baseMappings : ProductMappings)
    (manifest : Option snooty.Config) : ProductMappings :=
  match manifest with
  | none => baseMappings
  | some config =>
    if config.Composables.isEmpty then baseMappings
    else
      let merged : ProductMappings :=
        { DriversTabIDToProduct := copyMap baseMappings.DriversTabIDToProduct
          ComposableLanguageToProduct := copyMap baseMappings.ComposableLanguageToProduct
          ComposableInterfaceToProduct := copyMap baseMappings.ComposableInterfaceToProduct }
      let projectLanguage := snooty.BuildComposableIDToTitleMap config.Composables "language"
      let merged := { merged with
        ComposableLanguageToProduct := overlayMap merged.ComposableLanguageToProduct projectLanguage }
      let projectInterface := snooty.BuildComposableIDToTitleMap config.Composables "interface"
      { merged with
        ComposableInterfaceToProduct := overlayMap merged.ComposableInterfaceToProduct projectInterface }

/-! ## Inclusion Walker (`collectCodeExamplesWithContext`, csv_parser.go 225–300) -/

/-- A source file as the per-file collaborators deliver it.  `directives` is
the result of `rst.ParseDirectives` and `includes` of
`rst.FindIncludeDirectives` (both collaborators whose definitions are not
under src); `none` models an error.  `lines` feeds the in-src scanners. -/
structure RstFile where
  lines : List String := []
  directives : Option (List Directive) := some []
  includes : Option (List String) := some []

/-- A finite file system plus the include-path resolver
(`rst.ResolveIncludePath`, a collaborator).  A path with no entry models an
unreadable file: every per-file parser errors on it. -/
structure FileSystem where
  files : List (String × RstFile) := []
  resolveIncl : String → String → Option String := fun _ p => some p

def lookupFile (fs : FileSystem) (p : String) : Option RstFile :=
  (fs.files.find? (fun e => e.1 = p)).map (·.2)

/-- Context propagated to one include (csv_parser.go 277–290): its entry in
the include-to-selector map when present — a tab ID if the tab-ID table knows
the selection, else a composable language selection — otherwise the
inherited context. -/
def includeContextFor (selectedContentMap : List (String × String))
    (mappings : ProductMappings) (parentContext : Option CodeContext)
    (includeFile : String) : Option CodeContext :=
  match mapLookup selectedContentMap includeFile with
  | some selection =>
    if (mapLookup mappings.DriversTabIDToProduct selection).isSome then
      some { TabID := selection }
    else
      some { Language := selection }
  | none => parentContext

mutual

/-- `collectCodeExamplesWithContext`, embedded with an explicit fuel
parameter bounding recursion depth (`none` = out of fuel; sufficiency of the
canonical fuel is proved below).  Mirrors csv_parser.go 225–300: visited
check, mark visited, parse directives (an error here propagates), build the
include-to-selector map and the per-line / file-level contexts (an inherited
parent context replaces them), classify each directive, then follow
includes. -/
def collectCodeExamplesWithContext (fs : FileSystem) :
    Nat → String → String → List String → Option CodeContext → ProductMappings →
    Option (Except Unit (List CodeExample) × List String)
  | 0, _, _, _, _, _ => none
  | fuel + 1, filePath, contentDir, visited, parentContext, mappings =>
    if visited.contains filePath then some (.ok [], visited)
    else
      let visited := filePath :: visited
      match lookupFile fs filePath with
      | none => some (.error (), visited)
      | some file =>
        match file.directives with
        | none => some (.error (), visited)
        | some directives =>
          let selectedContentMap := parseSelectedContentBlocks (fs.resolveIncl filePath) file.lines
          let ctxPair : List ContextBlockRec × List CodeContext :=
            match parentContext with
            | some pc => ([], [pc])
            | none => (parseContextBlocks file.lines, parseFileContexts file.lines)
          let examples := directives.foldl (fun acc directive =>
            acc ++ processDirective directive filePath contentDir
              (findContextForLine directive.LineNum ctxPair.1 ctxPair.2) mappings) []
          match file.includes with
          | none => some (.ok examples, visited)
          | some includeFiles =>
            match collectIncludesLoop fs fuel contentDir mappings selectedContentMap
                parentContext includeFiles examples visited with
            | none => none
            | some r => some (.ok r.1, r.2)
termination_by fuel _ _ _ _ _ => (fuel, 0)

/-- The include loop (csv_parser.go 276–297): per include, the propagated
context is its entry in the include-to-selector map when present —
disambiguated tab-ID vs composable-language against the tab-ID table — else
the inherited context; a failing recursive call is skipped silently, keeping
whatever that branch marked visited. -/
def collectIncludesLoop (fs : FileSystem) :
    Nat → String → ProductMappings → List (String × String) → Option CodeContext →
    List String → List CodeExample → List String →
    Option (List CodeExample × List String)
  | _, _, _, _, _, [], examples, visited => some (examples, visited)
  | fuel, contentDir, mappings, selectedContentMap, parentContext,
      includeFile :: restFiles, examples, visited =>
    match collectCodeExamplesWithContext fs fuel includeFile contentDir visited
        (includeContextFor selectedContentMap mappings parentContext includeFile) mappings with
    | none => none
    | some (.ok includedExamples, visited) =>
      collectIncludesLoop fs fuel contentDir mappings selectedContentMap parentContext
        restFiles (examples ++ includedExamples) visited
    | some (.error _, visited) =>
      collectIncludesLoop fs fuel contentDir mappings selectedContentMap parentContext
        restFiles examples visited
termination_by fuel _ _ _ _ includeFiles _ _ => (fuel, includeFiles.length + 1)

end

/-- The canonical fuel: one more than the number of file-system entries. -/
def canonicalFuel (fs : FileSystem) : Nat := fs.files.length + 1

/-- `collectCodeExamples`: the top-level entry, with empty visited set and no
inherited context, run with the canonical fuel. -/
def collectCodeExamples (fs : FileSystem) (filePath contentDir : String)
    (mappings : ProductMappings) : Option (Except Unit (List CodeExample) × List String) :=
  collectCodeExamplesWithContext fs (canonicalFuel fs) filePath contentDir [] none mappings

/-! ## Auxiliary notions used by the verification -/

/-- Go-map lookup read from the insertion end: the value of the last entry
for `k` (Go map semantics when an association list has duplicate keys). -/
def mapLookupLast (m : List (String × String)) (k : String) : Option String :=
  (m.reverse.find? (fun e => e.1 = k)).map (·.2)

/-- Number of file-system paths not yet visited: the measure that shrinks at
every genuine recursion step of the inclusion walker. -/
def unvisitedCard (fs : FileSystem) (visited : List String) : Nat :=
  ((fs.files.map Prod.fst).toFinset.filter (fun q => ¬ q ∈ visited)).card

/-! ## Concrete fixtures -/

/-- A two-file inclusion cycle: `a.rst` includes `b.rst` and vice versa. -/
def cyclicFS : FileSystem :=
  { files :=
      [("a.rst", { includes := some ["b.rst"] }),
       ("b.rst", { includes := some ["a.rst"] })] }

/-- `a.rst` includes an unparsable file and a good one. -/
def errFS : FileSystem :=
  { files :=
      [("a.rst", { directives := some [{ Dtype := .codeBlock, Argument := "go", LineNum := 1 }],
                   includes := some ["bad.rst", "c.rst"] }),
       ("bad.rst", { directives := none }),
       ("c.rst", { directives := some [{ Dtype := .codeBlock, Argument := "python", LineNum := 1 }],
                   includes := some [] })] }

/-- Lines of a file that includes the same target twice, under
selected-content selections `python` and then `javascript`. -/
def dupIncludeLines : List String :=
  [".. selected-content::", "   :selections: python", "",
   "   .. include:: /includes/c.rst", "",
   ".. selected-content::", "   :selections: javascript", "",
   "   .. include:: /includes/c.rst"]

/-- File system in which `a.rst` includes `/includes/c.rst` twice under two
different selections, and the target holds one python code-block. -/
def dupIncludeFS : FileSystem :=
  { files :=
      [("a.rst", { lines := dupIncludeLines, directives := some [],
                   includes := some ["/includes/c.rst", "/includes/c.rst"] }),
       ("/includes/c.rst",
         { lines := [".. code-block:: python"],
           directives := some [{ Dtype := .codeBlock, Argument := "python", LineNum := 1 }],
           includes := some [] })] }

def dupIncludeMappings : ProductMappings :=
  { ComposableLanguageToProduct := [("python", "Python"), ("javascript", "JavaScript")] }

/-- A project manifest declaring a `language` composable option go → Go. -/
def goOverrideConfig : snooty.Config :=
  { Name := "atlas",
    Composables := [{ ID := "language", Title := "Language",
                      Options := [{ ID := "go", Title := "Go" }] }] }

def goBaseMappings : ProductMappings :=
  { ComposableLanguageToProduct := [("go", "Golang")] }

/-! # Claim theorems -/

/-! ## C1 — language precedence -/

/-- C1 counterexample: on the classification path for a code-block directive
(`processDirective` → `getLanguage`), a directive with argument `"python"`
and option `language: javascript` is classified with language
`"javascript"`, not `"python"` — the `:language:` option wins over the
argument, contradicting the claimed argument-first precedence. -/
theorem c1_counterexample :
    (processDirective
        { Dtype := .codeBlock, Argument := "python",
          Options := [("language", "javascript")], LineNum := 1 }
        "f.rst" "" [] {}).map (fun e => e.Language) = ["javascript"] ∧
    ("javascript" : String) ≠ "python" := by
  exact ⟨rfl, by decide⟩

/-- C1 (amended): the argument-first chain (argument > `:language:` option >
file extension > `"undefined"`) is implemented by `language.Resolve`, but the
classification path for code-block and yaml-code-block directives uses
`getLanguage`, which checks the `:language:` option first and only falls back
to the directive argument, then `"undefined"` — so the option, not the
argument, wins there. -/
theorem c1_language_precedence :
    (∀ (d : Directive) (defaultLang opt : String),
        mapLookup d.Options "language" = some opt → opt ≠ "" →
        getLanguage d defaultLang = opt) ∧
    (∀ (d : Directive) (defaultLang : String),
        (∀ opt, mapLookup d.Options "language" = some opt → opt = "") →
        defaultLang ≠ "" → getLanguage d defaultLang = defaultLang) ∧
    (∀ (d : Directive),
        (∀ opt, mapLookup d.Options "language" = some opt → opt = "") →
        getLanguage d "" = lang.Undefined) ∧
    (∀ languageArg languageOption filePath, languageArg ≠ "" →
        lang.Resolve languageArg languageOption filePath = lang.Normalize languageArg) ∧
    (∀ languageOption filePath, languageOption ≠ "" →
        lang.Resolve "" languageOption filePath = lang.Normalize languageOption) ∧
    (∀ filePath, filePath ≠ "" →
        lang.Resolve "" "" filePath =
          lang.Normalize (if lang.GetLanguageFromExtension filePath = ""
                          then lang.Undefined else lang.GetLanguageFromExtension filePath)) ∧
    lang.Resolve "" "" "" = lang.Normalize lang.Undefined := by
  refine ⟨?_, ?_, ?_, ?_, ?_, ?_, ?_⟩
  · intro d defaultLang opt h hne
    unfold getLanguage
    rw [h]
    simp [hne]
  · intro d defaultLang h hne
    unfold getLanguage
    cases hl : mapLookup d.Options "language" with
    | none => simp [hne]
    | some opt => simp [h opt hl, hne]
  · intro d h
    unfold getLanguage
    cases hl : mapLookup d.Options "language" with
    | none => simp
    | some opt => simp [h opt hl]
  · intro a o p ha
    unfold lang.Resolve
    simp [ha]
  · intro o p ho
    unfold lang.Resolve
    simp [ho]
  · intro p hp
    unfold lang.Resolve
    by_cases hg : lang.GetLanguageFromExtension p = "" <;> simp [hp, hg]
  · rfl

/-- Witness for C1's amended theorem at concrete inputs, exercising the
option-wins classification path, the argument tier and the file-extension
tier of `language.Resolve` (`.py` → `python`). -/
theorem c1_language_precedence_witness :
    getLanguage { Dtype := .codeBlock, Argument := "python",
                  Options := [("language", "javascript")], LineNum := 1 } "python"
      = "javascript" ∧
    lang.Resolve "python" "javascript" "" = lang.Normalize "python" ∧
    lang.Resolve "" "" "/path/to/example.py" = "python" := by
  refine ⟨c1_language_precedence.1 _ "python" "javascript" rfl (by decide),
          c1_language_precedence.2.2.2.1 "python" "javascript" "" (by decide), ?_⟩
  have h := c1_language_precedence.2.2.2.2.2.1 "/path/to/example.py" (by decide)
  rw [h]
  rfl

/-! ## C3 — shell ambiguity -/

/-- C3: a bare-`"shell"` directive classified outside any shell-product
context (content dir not `mongodb-shell`, no context with interface
`mongosh`) yields product `"Shell"` which is not testable; inside a
shell-product context it yields `"MongoDB Shell"` which is testable. -/
theorem c3_shell_ambiguity :
    (∀ contentDir contexts mappings, contentDir ≠ "mongodb-shell" →
        (∀ ctx ∈ contexts, ctx.Interface ≠ "mongosh") →
        determineProduct "shell" contentDir contexts mappings = "Shell" ∧
        isTestable "Shell" contentDir = false) ∧
    (∀ contentDir contexts mappings,
        (contentDir = "mongodb-shell" ∨ ∃ ctx ∈ contexts, ctx.Interface = "mongosh") →
        determineProduct "shell" contentDir contexts mappings = "MongoDB Shell" ∧
        isTestable "MongoDB Shell" contentDir = true) := by
  constructor
  · intro contentDir contexts mappings hdir hctx
    have hshell : isMongoShellContext contentDir contexts = false := by
      unfold isMongoShellContext
      simp only [Bool.or_eq_false_iff]
      constructor
      · simp [hdir]
      · simp only [List.any_eq_false]
        intro ctx hmem
        simp [hctx ctx hmem]
    constructor
    · unfold determineProduct
      rw [if_neg (by decide), if_pos (by decide), hshell]
      simp only [Bool.false_eq_true, if_false]
      rw [if_pos (by decide : goToLower "shell" = "shell")]
    · show TestableProducts.contains "Shell" = false
      decide
  · intro contentDir contexts mappings h
    have hshell : isMongoShellContext contentDir contexts = true := by
      unfold isMongoShellContext
      rcases h with h | ⟨ctx, hmem, hint⟩
      · simp [h]
      · simp only [Bool.or_eq_true, List.any_eq_true]
        exact Or.inr ⟨ctx, hmem, by simp [hint]⟩
    constructor
    · unfold determineProduct
      rw [if_neg (by decide), if_pos (by decide), hshell]
      rw [if_pos rfl]
    · show TestableProducts.contains "MongoDB Shell" = true
      decide

/-- Witness for C3 at concrete inputs. -/
theorem c3_shell_ambiguity_witness :
    (determineProduct "shell" "manual" [] {} = "Shell" ∧
     isTestable "Shell" "manual" = false) ∧
    (determineProduct "shell" "mongodb-shell" [] {} = "MongoDB Shell" ∧
     isTestable "MongoDB Shell" "mongodb-shell" = true) := by
  exact ⟨c3_shell_ambiguity.1 "manual" [] {} (by decide) (by intro ctx h; cases h),
         c3_shell_ambiguity.2 "mongodb-shell" [] {} (Or.inl rfl)⟩

/-! ## C4 — non-driver bypass -/

/-- C4: every language in the fixed non-driver set is classified straight
from the static language→display-name table; the supplied contexts, content
directory and mapping tables are never consulted (the result is invariant
under changing all of them). -/
theorem c4_non_driver_bypass :
    ∀ language ∈ lang.NonDriverLanguages,
      ∀ contentDir contexts mappings contentDir2 contexts2 mappings2,
        determineProduct language contentDir contexts mappings =
          lang.GetProductFromLanguage language ∧
        determineProduct language contentDir contexts mappings =
          determineProduct language contentDir2 contexts2 mappings2 := by
  have key : ∀ language, language ≠ "" → lang.IsNonDriverLanguage language = true →
      ∀ contentDir contexts mappings,
        determineProduct language contentDir contexts mappings =
          lang.GetProductFromLanguage language := by
    intro language hne hnd contentDir contexts mappings
    unfold determineProduct
    rw [if_pos ⟨hne, hnd⟩]
  intro language hmem contentDir contexts mappings contentDir2 contexts2 mappings2
  have hne : language ≠ "" := by
    revert hmem
    unfold lang.NonDriverLanguages
    intro hmem
    fin_cases hmem <;> decide
  have hnd : lang.IsNonDriverLanguage language = true := by
    revert hmem
    unfold lang.NonDriverLanguages
    intro hmem
    fin_cases hmem <;> decide
  exact ⟨key language hne hnd contentDir contexts mappings,
         (key language hne hnd contentDir contexts mappings).trans
           (key language hne hnd contentDir2 contexts2 mappings2).symm⟩

/-- Witness for C4: a `json` code example nested inside a `language=python`
selected-content context classifies as `"JSON"`, never `"Python"`. -/
theorem c4_non_driver_bypass_witness :
    determineProduct "json" "pymongo-driver" [{ Language := "python" }]
        { ComposableLanguageToProduct := [("python", "Python")] } = "JSON" := by
  have h := (c4_non_driver_bypass "json" (by decide) "pymongo-driver"
    [{ Language := "python" }] { ComposableLanguageToProduct := [("python", "Python")] }
    "" [] {}).1
  rw [h]
  rfl

/-! ## C7 — context resolution -/

/-- C7: `findContextForLine` returns the context of the first listed interval
that contains the line and has a non-empty selector; intervals whose selector
was never filled are skipped as "no context"; when no interval with a
non-empty selector contains the line it falls back to the file-level context
list.  The spec's concrete cases (directive at line 15 inside a
selected-content block [10,20] with selector `python`; directive at line 25
outside it) are included. -/
theorem c7_context_resolution :
    (∀ (n : Nat) (blocks : List ContextBlockRec) (fc : List CodeContext) (b : ContextBlockRec),
        blocks.find? (fun b => decide (b.startLine ≤ n ∧ n ≤ b.endLine ∧
          contextNonEmpty b.context)) = some b →
        findContextForLine n blocks fc = [b.context]) ∧
    (∀ (n : Nat) (blocks : List ContextBlockRec) (fc : List CodeContext),
        blocks.find? (fun b => decide (b.startLine ≤ n ∧ n ≤ b.endLine ∧
          contextNonEmpty b.context)) = none →
        findContextForLine n blocks fc = fc) ∧
    (∀ fc, findContextForLine 15
        [{ context := { Language := "python" }, startLine := 10, endLine := 20 }] fc =
        [{ Language := "python" }]) ∧
    (∀ fc, findContextForLine 25
        [{ context := { Language := "python" }, startLine := 10, endLine := 20 }] fc = fc) := by
  refine ⟨?_, ?_, ?_, ?_⟩
  · intro n blocks fc
    induction blocks with
    | nil => intro b h; simp at h
    | cons blk rest ih =>
      intro b h
      unfold findContextForLine
      by_cases hp : blk.startLine ≤ n ∧ n ≤ blk.endLine ∧ contextNonEmpty blk.context
      · rw [List.find?_cons_of_pos _ (by simpa using hp)] at h
        rw [if_pos hp]
        cases h
        rfl
      · rw [List.find?_cons_of_neg _ (by simpa using hp)] at h
        rw [if_neg hp]
        exact ih b h
  · intro n blocks fc
    induction blocks with
    | nil => intro _; rfl
    | cons blk rest ih =>
      intro h
      unfold findContextForLine
      by_cases hp : blk.startLine ≤ n ∧ n ≤ blk.endLine ∧ contextNonEmpty blk.context
      · rw [List.find?_cons_of_pos _ (by simpa using hp)] at h
        cases h
      · rw [List.find?_cons_of_neg _ (by simpa using hp)] at h
        rw [if_neg hp]
        exact ih h
  · intro fc; rfl
  · intro fc; rfl

/-- Witness for C7 at concrete inputs. -/
theorem c7_context_resolution_witness :
    findContextForLine 15
        [{ context := {}, startLine := 1, endLine := 30 },
         { context := { Language := "python" }, startLine := 10, endLine := 20 }]
        [{ TabID := "file-level" }] = [{ Language := "python" }] ∧
    findContextForLine 40
        [{ context := { Language := "python" }, startLine := 10, endLine := 20 }]
        [{ TabID := "file-level" }] = [{ TabID := "file-level" }] := by
  refine ⟨c7_context_resolution.1 15
      [{ context := {}, startLine := 1, endLine := 30 },
       { context := { Language := "python" }, startLine := 10, endLine := 20 }]
      [{ TabID := "file-level" }]
      { context := { Language := "python" }, startLine := 10, endLine := 20 } (by decide),
    c7_context_resolution.2.1 40
      [{ context := { Language := "python" }, startLine := 10, endLine := 20 }]
      [{ TabID := "file-level" }] (by decide)⟩

/-! ## Association-list lemmas for the Mapping Merger -/

theorem mapLookup_nil (k : String) : mapLookup [] k = none := rfl

theorem mapLookup_cons (e : String × String) (t : List (String × String)) (k : String) :
    mapLookup (e :: t) k = if e.1 = k then some e.2 else mapLookup t k := by
  unfold mapLookup
  by_cases h : e.1 = k
  · rw [List.find?_cons_of_pos _ (by simpa using h)]
    simp [h]
  · rw [List.find?_cons_of_neg _ (by simpa using h)]
    simp [h]

theorem mapInsert_cons (e : String × String) (t : List (String × String)) (k v : String) :
    mapInsert (e :: t) k v =
      if e.1 = k then mapInsert t k v else e :: mapInsert t k v := by
  unfold mapInsert
  by_cases h : e.1 = k
  · rw [List.filter_cons_of_neg (by simpa using h)]
    simp [h]
  · rw [List.filter_cons_of_pos (by simpa using h)]
    simp [h]

theorem mapLookup_mapInsert (m : List (String × String)) (k v k' : String) :
    mapLookup (mapInsert m k v) k' = if k' = k then some v else mapLookup m k' := by
  induction m with
  | nil =>
    show mapLookup [(k, v)] k' = _
    rw [mapLookup_cons]
    by_cases h : k' = k
    · rw [if_pos h.symm, if_pos h]
    · rw [if_neg (fun hk => h hk.symm), if_neg h]
  | cons e t ih =>
    rw [mapInsert_cons]
    by_cases hek : e.1 = k
    · rw [if_pos hek, ih, mapLookup_cons]
      by_cases h : k' = k
      · rw [if_pos h, if_pos h]
      · have he : ¬ e.1 = k' := fun he => h (hek ▸ he ▸ rfl : k' = k)
        rw [if_neg h, if_neg h, if_neg he]
    · rw [if_neg hek, mapLookup_cons, mapLookup_cons]
      by_cases hek' : e.1 = k'
      · have : ¬ k' = k := fun h => hek (h ▸ hek' ▸ rfl)
        rw [if_pos hek', if_neg this, if_pos hek']
      · rw [if_neg hek', if_neg hek', ih]

theorem mapLookupLast_nil (k : String) : mapLookupLast [] k = none := rfl

theorem mapLookupLast_cons (e : String × String) (t : List (String × String)) (k : String) :
    mapLookupLast (e :: t) k =
      (mapLookupLast t k).or (if e.1 = k then some e.2 else none) := by
  unfold mapLookupLast
  rw [List.reverse_cons, List.find?_append]
  cases hf : List.find? (fun x => decide (x.1 = k)) t.reverse with
  | some w => simp [hf]
  | none =>
    by_cases h : e.1 = k <;> simp [hf, List.find?, h]

theorem mapLookup_eq_none_of_not_mem (m : List (String × String)) (k : String)
    (h : k ∉ m.map Prod.fst) : mapLookup m k = none := by
  induction m with
  | nil => rfl
  | cons e t ih =>
    rw [mapLookup_cons]
    simp only [List.map_cons, List.mem_cons, not_or] at h
    rw [if_neg (fun he => h.1 he.symm)]
    exact ih h.2

theorem mapLookup_overlayMap (proj : List (String × String)) :
    ∀ (base : List (String × String)) (k : String),
      mapLookup (overlayMap base proj) k =
        (mapLookupLast proj k).or (mapLookup base k) := by
  induction proj with
  | nil =>
    intro base k
    simp [overlayMap, mapLookupLast]
  | cons e t ih =>
    intro base k
    have step : overlayMap base (e :: t) = overlayMap (mapInsert base e.1 e.2) t := rfl
    rw [step, ih, mapLookupLast_cons, Option.or_assoc, mapLookup_mapInsert]
    congr 1
    by_cases h : e.1 = k
    · rw [if_pos h.symm, if_pos h]
      rfl
    · rw [if_neg (fun hk => h hk.symm), if_neg h, Option.none_or]

theorem mapLookupLast_eq_mapLookup (m : List (String × String)) (hm : keysNodup m)
    (k : String) : mapLookupLast m k = mapLookup m k := by
  induction m with
  | nil => rfl
  | cons e t ih =>
    have hnot : e.1 ∉ t.map Prod.fst := (List.nodup_cons.mp hm).1
    have hnd : keysNodup t := (List.nodup_cons.mp hm).2
    rw [mapLookupLast_cons, mapLookup_cons, ih hnd]
    by_cases h : e.1 = k
    · rw [if_pos h, if_pos h, mapLookup_eq_none_of_not_mem t k (h ▸ hnot)]
      rfl
    · rw [if_neg h, if_neg h, Option.or_none]

theorem keysNodup_mapInsert (m : List (String × String)) (k v : String)
    (hm : keysNodup m) : keysNodup (mapInsert m k v) := by
  induction m with
  | nil =>
    show ([(k, v)].map Prod.fst).Nodup
    simp
  | cons e t ih =>
    have hnot : e.1 ∉ t.map Prod.fst := (List.nodup_cons.mp hm).1
    have hnd : keysNodup t := (List.nodup_cons.mp hm).2
    rw [mapInsert_cons]
    by_cases h : e.1 = k
    · rw [if_pos h]
      exact ih hnd
    · rw [if_neg h]
      show (e.1 :: (mapInsert t k v).map Prod.fst).Nodup
      rw [List.nodup_cons]
      refine ⟨?_, ih hnd⟩
      intro hmem
      unfold mapInsert at hmem
      rw [List.map_append, List.mem_append] at hmem
      rcases hmem with hmem | hmem
      · exact hnot (by
          rcases List.mem_map.mp hmem with ⟨x, hx, hx1⟩
          exact List.mem_map.mpr ⟨x, List.mem_of_mem_filter hx, hx1⟩)
      · simp at hmem
        exact h hmem

theorem keysNodup_buildMap (composables : List snooty.Composable) (composableID : String) :
    keysNodup (snooty.BuildComposableIDToTitleMap composables composableID) := by
  have inner : ∀ (opts : List snooty.ComposableOption) (r : List (String × String)),
      keysNodup r → keysNodup (opts.foldl (fun r opt => mapInsert r opt.ID opt.Title) r) := by
    intro opts
    induction opts with
    | nil => intro r hr; exact hr
    | cons o t ih =>
      intro r hr
      exact ih _ (keysNodup_mapInsert r o.ID o.Title hr)
  have outer : ∀ (cs : List snooty.Composable) (r : List (String × String)),
      keysNodup r →
      keysNodup (cs.foldl (fun result comp =>
        if comp.ID = composableID then
          comp.Options.foldl (fun r opt => mapInsert r opt.ID opt.Title) result
        else result) r) := by
    intro cs
    induction cs with
    | nil => intro r hr; exact hr
    | cons c t ih =>
      intro r hr
      by_cases h : c.ID = composableID
      · simp only [List.foldl_cons, if_pos h]
        exact ih _ (inner c.Options r hr)
      · simp only [List.foldl_cons, if_neg h]
        exact ih _ hr
  exact outer composables [] (by simp [keysNodup])

/-! ## C9 — MergeProjectComposables -/

/-- C9: with no manifest (or an unparsable one, modelled as `none`) or a
manifest declaring no composables, `MergeProjectComposables` returns the base
mappings themselves; otherwise it returns a fresh mapping set whose driver
table looks up exactly as the base's and whose language/interface tables look
up as the project tables overlaid on the base tables, project entries winning
on key collision.  Base mappings are Go maps, so their key lists are assumed
duplicate-free; the function never mutates its input (it is pure and the
no-manifest result is the very same value). -/
theorem c9_merge_project_composables :
    (∀ base, MergeProjectComposables base none = base) ∧
    (∀ base config, config.Composables = [] →
        MergeProjectComposables base (some config) = base) ∧
    (∀ base config, config.Composables ≠ [] →
        keysNodup base.DriversTabIDToProduct →
        keysNodup base.ComposableLanguageToProduct →
        keysNodup base.ComposableInterfaceToProduct →
        ∀ k,
          mapLookup (MergeProjectComposables base (some config)).DriversTabIDToProduct k =
            mapLookup base.DriversTabIDToProduct k ∧
          mapLookup (MergeProjectComposables base (some config)).ComposableLanguageToProduct k =
            (mapLookup (snooty.BuildComposableIDToTitleMap config.Composables "language") k).or
              (mapLookup base.ComposableLanguageToProduct k) ∧
          mapLookup (MergeProjectComposables base (some config)).ComposableInterfaceToProduct k =
            (mapLookup (snooty.BuildComposableIDToTitleMap config.Composables "interface") k).or
              (mapLookup base.ComposableInterfaceToProduct k)) := by
  have copy_eq : ∀ (m : List (String × String)), keysNodup m →
      ∀ k, mapLookup (copyMap m) k = mapLookup m k := by
    intro m hm k
    show mapLookup (overlayMap [] m) k = _
    rw [mapLookup_overlayMap, mapLookup_nil, Option.or_none, mapLookupLast_eq_mapLookup m hm]
  refine ⟨fun base => rfl, ?_, ?_⟩
  · intro base config h
    simp only [MergeProjectComposables]
    rw [if_pos (by simp [h])]
  · intro base config h hd hl hi k
    simp only [MergeProjectComposables]
    rw [if_neg (by simpa using h)]
    refine ⟨copy_eq _ hd k, ?_, ?_⟩
    · show mapLookup (overlayMap (copyMap base.ComposableLanguageToProduct)
          (snooty.BuildComposableIDToTitleMap config.Composables "language")) k = _
      rw [mapLookup_overlayMap, copy_eq _ hl k,
          mapLookupLast_eq_mapLookup _ (keysNodup_buildMap config.Composables "language")]
    · show mapLookup (overlayMap (copyMap base.ComposableInterfaceToProduct)
          (snooty.BuildComposableIDToTitleMap config.Composables "interface")) k = _
      rw [mapLookup_overlayMap, copy_eq _ hi k,
          mapLookupLast_eq_mapLookup _ (keysNodup_buildMap config.Composables "interface")]

/-- Witness for C9: a project manifest declaring language option go → Go
overrides a base mapping go → Golang in the merged result; with no manifest
the base value is returned unchanged. -/
theorem c9_merge_project_composables_witness :
    mapLookup (MergeProjectComposables goBaseMappings
        (some goOverrideConfig)).ComposableLanguageToProduct "go" = some "Go" ∧
    MergeProjectComposables goBaseMappings none = goBaseMappings := by
  constructor
  · have h := (c9_merge_project_composables.2.2 goBaseMappings goOverrideConfig
      (by decide) (by unfold keysNodup; decide) (by unfold keysNodup; decide)
      (by unfold keysNodup; decide) "go").2.1
    rw [h]
    rfl
  · exact c9_merge_project_composables.1 goBaseMappings

/-! ## C5 — option lines and open blocks -/

/-- Anatomy of a successful option-line capture. -/
theorem optionCapture_some {key line : String} {v : String}
    (h : optionCapture key line = some v) :
    ∃ r, line.data.dropWhile isSpaceChar = key.data ++ r ∧ v = ⟨r⟩ ∧ r ≠ [] := by
  unfold optionCapture at h
  cases hs : stripStr key (line.data.dropWhile isSpaceChar) with
  | none =>
    simp only [hs] at h
    exact Option.noConfusion h
  | some rest =>
    simp only [hs] at h
    by_cases he : rest.isEmpty
    · rw [if_pos he] at h
      cases h
    · rw [if_neg he] at h
      unfold stripStr at hs
      by_cases hp : key.data.isPrefixOf (line.data.dropWhile isSpaceChar)
      · rw [if_pos hp] at hs
        obtain ⟨t, ht⟩ := List.isPrefixOf_iff_prefix.mp hp
        have hrest : rest = t := by
          have hdrop := Option.some_inj.mp hs
          rw [← hdrop, ← ht, List.drop_left]
        refine ⟨t, ht.symm, ?_, ?_⟩
        · rw [← hrest]
          exact (Option.some_inj.mp h).symm
        · rw [← hrest]
          simpa using he
      · rw [if_neg hp] at hs
        cases hs

/-- The trimmed form of a line keeps its first non-whitespace character. -/
theorem goTrimSpace_data_of_dropWhile {line : String} {c : Char} {l : List Char}
    (hd : line.data.dropWhile isSpaceChar = c :: l) (hc : isSpaceChar c = false) :
    ∃ l', (goTrimSpace line).data = c :: l' := by
  unfold goTrimSpace
  rw [hd]
  show ∃ l', ((c :: l).reverse.dropWhile isSpaceChar).reverse = c :: l'
  rw [List.reverse_cons, List.dropWhile_append]
  by_cases he : (l.reverse.dropWhile isSpaceChar).isEmpty
  · rw [if_pos he]
    exact ⟨[], by simp [List.dropWhile, hc]⟩
  · rw [if_neg he]
    exact ⟨(l.reverse.dropWhile isSpaceChar).reverse, by simp⟩

/-- A line whose trimmed form starts with a colon can match no `..`-directive
and never triggers the block-closing scan. -/
theorem dotDotDirectiveRest_colon (name : String) (l : List Char) :
    dotDotDirectiveRest name (':' :: l) = none := by
  unfold dotDotDirectiveRest stripStr
  rw [if_neg (by simp [List.isPrefixOf, String.data])]

/-- A `:selections:` line is not a `:tabid:` line. -/
theorem tabIDOptionCapture_of_selections {line v : String}
    (h : selectionsOptionCapture line = some v) : tabIDOptionCapture line = none := by
  obtain ⟨r, hd, _, _⟩ := optionCapture_some h
  unfold tabIDOptionCapture optionCapture stripStr
  rw [hd]
  rw [if_neg ?hneg]
  case hneg =>
    intro hp
    rw [List.isPrefixOf_iff_prefix] at hp
    rw [show (":selections:").data = [':','s','e','l','e','c','t','i','o','n','s',':'] from rfl] at hp
    rw [show (":tabid:").data = [':','t','a','b','i','d',':'] from rfl] at hp
    simp only [List.cons_append, List.cons_prefix_cons] at hp
    exact absurd hp.2.1 (by decide)

/-- C5 (amended): while blocks are open, a `:tabid:` (resp. `:selections:`)
option line sets the `TabID` (resp. `Language`) field of the most recently
opened block regardless of that block's kind, overwriting any previously
filled value; option lines close nothing and touch nothing else. -/
theorem c5_option_line_fills_last_block :
    (∀ (st : PCBState) (n : Nat) (line v : String), st.openBlocks ≠ [] →
        tabIDOptionCapture line = some v →
        parseContextBlocksLine st n line =
          { st with openBlocks :=
              updateLast (fun ob => { ob with context :=
                { ob.context with TabID := goTrimSpace v } }) st.openBlocks }) ∧
    (∀ (st : PCBState) (n : Nat) (line v : String), st.openBlocks ≠ [] →
        selectionsOptionCapture line = some v →
        parseContextBlocksLine st n line =
          { st with openBlocks :=
              updateLast (fun ob => { ob with context :=
                { ob.context with Language := goTrimSpace v } }) st.openBlocks }) := by
  constructor
  · intro st n line v hob hcap
    obtain ⟨r, hd, _, _⟩ := optionCapture_some hcap
    have hcolon : ∃ l', (goTrimSpace line).data = ':' :: l' :=
      goTrimSpace_data_of_dropWhile (by rw [hd]; rfl) (by decide)
    obtain ⟨l', htl⟩ := hcolon
    have hstart : strStartsWith (goTrimSpace line) ":" = true := by
      unfold strStartsWith
      rw [htl]
      simp [List.isPrefixOf, String.data]
    have htab : tabDirectiveMatch (goTrimSpace line) = false := by
      unfold tabDirectiveMatch
      rw [htl, dotDotDirectiveRest_colon]
      rfl
    have hsc : selectedContentDirectiveMatch (goTrimSpace line) = false := by
      unfold selectedContentDirectiveMatch
      rw [htl, dotDotDirectiveRest_colon]
      rfl
    simp [parseContextBlocksLine, hstart, htab, hsc, hcap,
      List.isEmpty_eq_false.mpr hob]
  · intro st n line v hob hcap
    obtain ⟨r, hd, _, _⟩ := optionCapture_some hcap
    have hcolon : ∃ l', (goTrimSpace line).data = ':' :: l' :=
      goTrimSpace_data_of_dropWhile (by rw [hd]; rfl) (by decide)
    obtain ⟨l', htl⟩ := hcolon
    have hstart : strStartsWith (goTrimSpace line) ":" = true := by
      unfold strStartsWith
      rw [htl]
      simp [List.isPrefixOf, String.data]
    have htab : tabDirectiveMatch (goTrimSpace line) = false := by
      unfold tabDirectiveMatch
      rw [htl, dotDotDirectiveRest_colon]
      rfl
    have hsc : selectedContentDirectiveMatch (goTrimSpace line) = false := by
      unfold selectedContentDirectiveMatch
      rw [htl, dotDotDirectiveRest_colon]
      rfl
    have hnotab : tabIDOptionCapture line = none := tabIDOptionCapture_of_selections hcap
    simp [parseContextBlocksLine, hstart, htab, hsc, hcap, hnotab,
      List.isEmpty_eq_false.mpr hob]

/-- C5 counterexample: a `:tabid:` line arriving after the block's selector
is already filled does change the selector — the tracker overwrites
`python` with `nodejs`, where the claim requires the selector to stay
`python`.  (The tracker also fills a `:tabid:` value into a block opened by
`selected-content`, kind notwithstanding.) -/
theorem c5_counterexample :
    parseContextBlocks [".. tab::", "   :tabid: python", "   :tabid: nodejs"] =
      [{ context := { TabID := "nodejs" }, startLine := 1, endLine := 3 }] ∧
    ("nodejs" : String) ≠ "python" ∧
    parseContextBlocks [".. selected-content::", "   :tabid: python"] =
      [{ context := { TabID := "python" }, startLine := 1, endLine := 2 }] := by
  exact ⟨by decide, by decide, by decide⟩

/-- Witness for C5's amended theorem at concrete inputs. -/
theorem c5_option_line_fills_last_block_witness :
    parseContextBlocksLine
        { blocks := [], openBlocks := [{ context := { TabID := "python" }, start := 1, indent := 0 }] }
        2 "   :tabid: nodejs" =
      { blocks := [],
        openBlocks := [{ context := { TabID := "nodejs" }, start := 1, indent := 0 }] } := by
  have h := c5_option_line_fills_last_block.1
    { blocks := [], openBlocks := [{ context := { TabID := "python" }, start := 1, indent := 0 }] }
    2 "   :tabid: nodejs" " nodejs" (by decide) (by decide)
  rw [h]
  rfl

/-! ## C6 — interval closing -/

/-- When every open block sits at indentation strictly below the line's, the
closing loop is a no-op. -/
theorem closeLoopGo_all_lt (ind ln : Nat) :
    ∀ (i : Nat) (obs : List OpenBlock) (closed : List ContextBlockRec),
      i ≤ obs.length → (∀ ob ∈ obs, ob.indent < ind) →
      closeLoopGo ind ln i obs closed = (obs, closed) := by
  intro i
  induction i with
  | zero => intro obs closed _ _; rfl
  | succ j ih =>
    intro obs closed hlen hall
    unfold closeLoopGo
    have hj : j < obs.length := Nat.lt_of_lt_of_le (Nat.lt_succ_self j) hlen
    have hmem : obs.getD j {} ∈ obs := by
      rw [List.getD_eq_getElem obs {} hj]
      exact List.getElem_mem hj
    rw [if_neg (fun hc => Nat.not_le_of_lt (hall _ hmem) hc.2)]
    exact ih obs closed (Nat.le_of_lt hj) hall

/-- Characterization of the closing loop on stacks with strictly increasing
indentation (the invariant the tracker's stack maintains): precisely the
blocks opened at indentation ≥ the current line's are closed, in LIFO order,
each with `endLine` = the current line number − 1; the strictly shallower
prefix survives. -/
theorem closeLoopGo_sorted (ind ln : Nat) :
    ∀ (obs : List OpenBlock) (closed : List ContextBlockRec),
      List.Pairwise (fun a b => a.indent < b.indent) obs →
      closeLoopGo ind ln obs.length obs closed =
        (obs.takeWhile (fun ob => ob.indent < ind),
         closed ++ (obs.drop (obs.takeWhile (fun ob => ob.indent < ind)).length).reverse.map
           (fun ob => { context := ob.context, startLine := ob.start, endLine := ln - 1 })) := by
  intro obs
  induction obs using List.reverseRecOn with
  | nil => intro closed _; simp [closeLoopGo]
  | append_singleton ys b ih =>
    intro closed hpair
    obtain ⟨hpys, _, hylt⟩ := List.pairwise_append.mp hpair
    have hgd : (ys ++ [b]).getD ys.length {} = b := by
      unfold List.getD
      rw [List.get?_eq_getElem?, List.getElem?_append_right (Nat.le_refl _)]
      simp
    have hlen : (ys ++ [b]).length = ys.length + 1 := by simp
    rw [hlen]
    unfold closeLoopGo
    rw [hgd]
    by_cases hb : ind ≤ b.indent
    · rw [if_pos ⟨by simp, hb⟩, List.take_left]
      have hih := ih (closed ++
        [({ context := b.context, startLine := b.start, endLine := ln - 1 } : ContextBlockRec)]) hpys
      rw [hih]
      have hbp : (fun ob => decide (ob.indent < ind)) b = false := by
        simp [Nat.not_lt_of_le hb]
      have htw : (ys ++ [b]).takeWhile (fun ob => decide (ob.indent < ind)) =
          ys.takeWhile (fun ob => decide (ob.indent < ind)) := by
        rw [List.takeWhile_append]
        by_cases hl : (ys.takeWhile (fun ob => decide (ob.indent < ind))).length = ys.length
        · rw [if_pos hl]
          have : ys.takeWhile (fun ob => decide (ob.indent < ind)) = ys :=
            (List.takeWhile_prefix _).eq_of_length hl
          rw [this]
          simp [List.takeWhile, hbp]
        · rw [if_neg hl]
      rw [htw, List.drop_append_of_le_length ((List.takeWhile_prefix _).length_le)]
      simp
    · rw [if_neg (fun hc => hb hc.2)]
      have hlt : b.indent < ind := Nat.lt_of_not_le hb
      have hall : ∀ ob ∈ ys ++ [b], ob.indent < ind := by
        intro ob hmem
        rcases List.mem_append.mp hmem with hy | hb'
        · exact Nat.lt_trans (hylt ob hy b (by simp)) hlt
        · simp at hb'
          rw [hb']
          exact hlt
      rw [closeLoopGo_all_lt ind ln ys.length (ys ++ [b]) closed (by simp) hall]
      have htw : (ys ++ [b]).takeWhile (fun ob => decide (ob.indent < ind)) = ys ++ [b] :=
        List.takeWhile_eq_self_iff.mpr (fun ob hmem => by simpa using hall ob hmem)
      rw [htw]
      simp

/-- The line counter after the tracker's scan equals the number of lines. -/
theorem parseContextBlocksRun_lineNum (lines : List String) :
    (parseContextBlocksRun lines).2 = lines.length := by
  unfold parseContextBlocksRun
  have general : ∀ (l : List String) (st : PCBState) (n : Nat),
      (l.foldl (fun (p : PCBState × Nat) line => (parseContextBlocksLine p.1 (p.2 + 1) line, p.2 + 1))
        (st, n)).2 = n + l.length := by
    intro l
    induction l with
    | nil => intro st n; simp
    | cons x t ih =>
      intro st n
      rw [List.foldl_cons, ih, List.length_cons]
      omega
  rw [general]
  omega

/-- C6: on a non-blank, non-option line the tracker pops and finalizes every
open block whose opening indentation is ≥ the line's, in LIFO order, each
with `endLine` = current line − 1 (first conjunct: the closing loop on the
strictly-increasing stack; second conjunct: the blocks emitted by the full
line step); at end of file every block still open is closed with
`endLine` = the file's last line number (third conjunct); the spec's nested
tabs at indentations 0 and 3 closed together by a dedent, each with its own
`endLine`, and a still-open block closed at end of file, appear as the final
conjuncts. -/
theorem c6_interval_closing :
    (∀ (obs : List OpenBlock) (closed : List ContextBlockRec) (ind ln : Nat),
      List.Pairwise (fun a b => a.indent < b.indent) obs →
      closeLoopGo ind ln obs.length obs closed =
        (obs.takeWhile (fun ob => ob.indent < ind),
         closed ++ (obs.drop (obs.takeWhile (fun ob => ob.indent < ind)).length).reverse.map
           (fun ob => { context := ob.context, startLine := ob.start, endLine := ln - 1 }))) ∧
    (∀ (st : PCBState) (n : Nat) (line : String),
      goTrimSpace line ≠ "" →
      strStartsWith (goTrimSpace line) ":" = false →
      List.Pairwise (fun a b => a.indent < b.indent) st.openBlocks →
      (parseContextBlocksLine st n line).blocks =
        st.blocks ++
          (st.openBlocks.drop
            (st.openBlocks.takeWhile
              (fun ob => ob.indent < line.length - (goTrimLeftSpaces line).length)).length).reverse.map
            (fun ob => { context := ob.context, startLine := ob.start, endLine := n - 1 })) ∧
    (∀ lines : List String,
      parseContextBlocks lines =
        (parseContextBlocksRun lines).1.blocks ++
          (parseContextBlocksRun lines).1.openBlocks.map (fun ob =>
            { context := ob.context, startLine := ob.start, endLine := lines.length })) ∧
    parseContextBlocks [".. tab::", "   :tabid: a", "   .. tab::", "      :tabid: b", "x"] =
      [{ context := { TabID := "b" }, startLine := 3, endLine := 4 },
       { context := { TabID := "a" }, startLine := 1, endLine := 4 }] ∧
    parseContextBlocks [".. tab::", "   :tabid: a"] =
      [{ context := { TabID := "a" }, startLine := 1, endLine := 2 }] := by
  refine ⟨fun obs closed ind ln h => closeLoopGo_sorted ind ln obs closed h, ?_, ?_, by decide, by decide⟩
  · intro st n line hne hns hpair
    have hc := closeLoopGo_sorted (line.length - (goTrimLeftSpaces line).length) n
      st.openBlocks [] hpair
    simp only [parseContextBlocksLine, hns, hc, Bool.false_eq_true, not_false_eq_true,
      ne_eq, hne, and_self, if_true, List.nil_append]
    split
    · simp
    · split
      · simp
      · split
        · split
          · simp
          · split
            · simp
            · simp
        · simp
  · intro lines
    have h2 := parseContextBlocksRun_lineNum lines
    unfold parseContextBlocks
    cases hrun : parseContextBlocksRun lines with
    | mk st ln =>
      rw [hrun] at h2
      simp only [hrun]
      simp at h2
      rw [h2]

/-- Witness for C6 at a concrete stack: nested blocks opened at indentations
0 and 3, dedent to indentation 0 on line 5 closes both, LIFO, each with
`endLine` 4. -/
theorem c6_interval_closing_witness :
    closeLoopGo 0 5 2
        [{ context := { TabID := "a" }, start := 1, indent := 0 },
         { context := { TabID := "b" }, start := 3, indent := 3 }] [] =
      ([], [{ context := { TabID := "b" }, startLine := 3, endLine := 4 },
            { context := { TabID := "a" }, startLine := 1, endLine := 4 }]) := by
  have h := c6_interval_closing.1
    [{ context := { TabID := "a" }, start := 1, indent := 0 },
     { context := { TabID := "b" }, start := 3, indent := 3 }] [] 0 5 (by decide)
  exact h.trans (by decide)

/-! ## Inclusion-walker lemmas -/

/-- The visited set only grows along the walk, and stays duplicate-free. -/
theorem collectWalk_visited_mono (fs : FileSystem) (m : ProductMappings) :
    ∀ fuel : Nat,
      (∀ p cd visited ctx r v',
        collectCodeExamplesWithContext fs fuel p cd visited ctx m = some (r, v') →
        visited ⊆ v' ∧ (visited.Nodup → v'.Nodup)) ∧
      (∀ cd scm ctx files exs visited es v',
        collectIncludesLoop fs fuel cd m scm ctx files exs visited = some (es, v') →
        visited ⊆ v' ∧ (visited.Nodup → v'.Nodup)) := by
  intro fuel
  induction fuel with
  | zero =>
    constructor
    · intro p cd visited ctx r v' h
      simp [collectCodeExamplesWithContext] at h
    · intro cd scm ctx files exs visited es v' h
      cases files with
      | nil =>
        rw [collectIncludesLoop] at h
        cases h
        exact ⟨List.Subset.refl _, id⟩
      | cons f rest =>
        rw [collectIncludesLoop] at h
        simp [collectCodeExamplesWithContext] at h
  | succ n ih =>
    have hcol : ∀ p cd visited ctx r v',
        collectCodeExamplesWithContext fs (n + 1) p cd visited ctx m = some (r, v') →
        visited ⊆ v' ∧ (visited.Nodup → v'.Nodup) := by
      intro p cd visited ctx r v' h
      simp only [collectCodeExamplesWithContext] at h
      by_cases hvis : visited.contains p
      · rw [if_pos hvis] at h
        cases h
        exact ⟨List.Subset.refl _, id⟩
      · rw [if_neg hvis] at h
        have hsub : visited ⊆ p :: visited := List.subset_cons_self p visited
        have hnd : visited.Nodup → (p :: visited).Nodup := by
          intro hn
          rw [List.nodup_cons]
          exact ⟨by simpa using hvis, hn⟩
        split at h
        · cases h
          exact ⟨hsub, hnd⟩
        · split at h
          · cases h
            exact ⟨hsub, hnd⟩
          · split at h
            · cases h
              exact ⟨hsub, hnd⟩
            · split at h
              · cases h
              · rename_i r2 heq
                cases h
                obtain ⟨hs2, hn2⟩ := ih.2 _ _ _ _ _ _ _ _ heq
                exact ⟨List.Subset.trans hsub hs2, fun hn => hn2 (hnd hn)⟩
    refine ⟨hcol, ?_⟩
    intro cd scm ctx files exs visited es v' h
    induction files generalizing exs visited with
    | nil =>
      rw [collectIncludesLoop] at h
      cases h
      exact ⟨List.Subset.refl _, id⟩
    | cons f rest ihf =>
      rw [collectIncludesLoop] at h
      cases hc : collectCodeExamplesWithContext fs (n + 1) f cd visited
          (includeContextFor scm m ctx f) m with
      | none =>
        rw [hc] at h
        cases h
      | some rr =>
        rw [hc] at h
        obtain ⟨re, v2⟩ := rr
        obtain ⟨hs1, hn1⟩ := hcol f cd visited (includeContextFor scm m ctx f) re v2 hc
        cases re with
        | ok inc =>
          obtain ⟨hs2, hn2⟩ := ihf _ _ h
          exact ⟨List.Subset.trans hs1 hs2, fun hn => hn2 (hn1 hn)⟩
        | error e =>
          obtain ⟨hs2, hn2⟩ := ihf _ _ h
          exact ⟨List.Subset.trans hs1 hs2, fun hn => hn2 (hn1 hn)⟩

/-- A successful file lookup means the path is among the file-system paths. -/
theorem mem_paths_of_lookupFile (fs : FileSystem) (p : String) {file : RstFile}
    (h : lookupFile fs p = some file) : p ∈ fs.files.map Prod.fst := by
  unfold lookupFile at h
  cases hf : fs.files.find? (fun e => e.1 = p) with
  | none => rw [hf] at h; cases h
  | some e =>
    have hmem := List.mem_of_find?_eq_some hf
    have hp : e.1 = p := by simpa using List.find?_some hf
    exact hp ▸ List.mem_map_of_mem Prod.fst hmem

/-- Marking an unvisited file-system path strictly shrinks the measure. -/
theorem unvisitedCard_cons_lt (fs : FileSystem) (visited : List String) {p : String}
    (hmem : p ∈ fs.files.map Prod.fst) (hnv : p ∉ visited) :
    unvisitedCard fs (p :: visited) < unvisitedCard fs visited := by
  unfold unvisitedCard
  apply Finset.card_lt_card
  constructor
  · apply Finset.monotone_filter_right
    intro q hq
    simp only [List.mem_cons, not_or] at hq
    exact hq.2
  · intro hsup
    have hp1 : p ∈ (fs.files.map Prod.fst).toFinset.filter (fun q => ¬ q ∈ visited) :=
      Finset.mem_filter.mpr ⟨List.mem_toFinset.mpr hmem, hnv⟩
    have hp2 := hsup hp1
    simp at hp2

/-- Growing the visited set never grows the measure. -/
theorem unvisitedCard_mono (fs : FileSystem) {visited v' : List String}
    (h : visited ⊆ v') : unvisitedCard fs v' ≤ unvisitedCard fs visited := by
  unfold unvisitedCard
  apply Finset.card_le_card
  apply Finset.monotone_filter_right
  intro q hq hmem
  exact hq (h hmem)

/-- Fuel exceeding the number of unvisited file-system paths is sufficient:
the walk never runs out. -/
theorem collectWalk_fuel_sufficient (fs : FileSystem) (m : ProductMappings) :
    ∀ fuel : Nat,
      (∀ p cd visited ctx, unvisitedCard fs visited < fuel →
        (collectCodeExamplesWithContext fs fuel p cd visited ctx m).isSome) ∧
      (∀ cd scm ctx files exs visited, unvisitedCard fs visited < fuel →
        (collectIncludesLoop fs fuel cd m scm ctx files exs visited).isSome) := by
  intro fuel
  induction fuel with
  | zero =>
    constructor
    · intro p cd visited ctx hlt
      exact absurd hlt (Nat.not_lt_zero _)
    · intro cd scm ctx files exs visited hlt
      exact absurd hlt (Nat.not_lt_zero _)
  | succ n ih =>
    have hcol : ∀ p cd visited ctx, unvisitedCard fs visited < n + 1 →
        (collectCodeExamplesWithContext fs (n + 1) p cd visited ctx m).isSome := by
      intro p cd visited ctx hlt
      simp only [collectCodeExamplesWithContext]
      by_cases hvis : visited.contains p
      · rw [if_pos hvis]
        rfl
      · rw [if_neg hvis]
        cases hlk : lookupFile fs p with
        | none => simp [hlk]
        | some file =>
          simp only [hlk]
          cases hdir : file.directives with
          | none => simp [hdir]
          | some directives =>
            simp only [hdir]
            cases hinc : file.includes with
            | none => simp [hinc]
            | some includeFiles =>
              simp only [hinc]
              have hmem := mem_paths_of_lookupFile fs p hlk
              have hcard : unvisitedCard fs (p :: visited) < n :=
                Nat.lt_of_lt_of_le (unvisitedCard_cons_lt fs visited hmem (by simpa using hvis))
                  (Nat.le_of_lt_succ hlt)
              split
              · rename_i heq
                exact absurd heq (Option.ne_none_iff_isSome.mpr
                  (ih.2 cd _ _ _ _ _ hcard))
              · rfl
    refine ⟨hcol, ?_⟩
    intro cd scm ctx files exs visited hlt
    induction files generalizing exs visited with
    | nil =>
      rw [collectIncludesLoop]
      rfl
    | cons f rest ihf =>
      rw [collectIncludesLoop]
      cases hc : collectCodeExamplesWithContext fs (n + 1) f cd visited
          (includeContextFor scm m ctx f) m with
      | none =>
        exact absurd hc (Option.ne_none_iff_isSome.mpr
          (hcol f cd visited (includeContextFor scm m ctx f) hlt))
      | some rr =>
        obtain ⟨re, v2⟩ := rr
        have hsub := ((collectWalk_visited_mono fs m (n + 1)).1 f cd visited
          (includeContextFor scm m ctx f) re v2 hc).1
        have hcard2 : unvisitedCard fs v2 < n + 1 :=
          Nat.lt_of_le_of_lt (unvisitedCard_mono fs hsub) hlt
        cases re with
        | ok inc => exact ihf (exs ++ inc) v2 hcard2
        | error e => exact ihf exs v2 hcard2

/-! ## C2 — cycle safety and visited-set discipline -/

/-- C2: for every finite file system — inclusion cycles included — the
top-level collection entry (empty visited set, no inherited context, run
with the canonical fuel) returns a result rather than exhausting its fuel;
within one invocation the visited set only ever grows and stays
duplicate-free, and a call on an already-visited file returns immediately
with no examples and the visited set unchanged, so each file is processed at
most once. -/
theorem c2_cycle_safety :
    ∀ (fs : FileSystem) (filePath contentDir : String) (m : ProductMappings),
      (collectCodeExamples fs filePath contentDir m).isSome ∧
      (∀ fuel p cd visited ctx r v',
        collectCodeExamplesWithContext fs fuel p cd visited ctx m = some (r, v') →
        visited ⊆ v' ∧ (visited.Nodup → v'.Nodup)) ∧
      (∀ fuel p cd visited ctx, visited.contains p = true →
        collectCodeExamplesWithContext fs (fuel + 1) p cd visited ctx m =
          some (.ok [], visited)) := by
  intro fs filePath contentDir m
  refine ⟨?_, ?_, ?_⟩
  · apply (collectWalk_fuel_sufficient fs m (canonicalFuel fs)).1
    unfold canonicalFuel unvisitedCard
    have h1 : ((fs.files.map Prod.fst).toFinset.filter
        (fun q => ¬ q ∈ ([] : List String))).card ≤ fs.files.length := by
      calc ((fs.files.map Prod.fst).toFinset.filter (fun q => ¬ q ∈ ([] : List String))).card
          ≤ (fs.files.map Prod.fst).toFinset.card := Finset.card_filter_le _ _
        _ ≤ (fs.files.map Prod.fst).length := List.toFinset_card_le _
        _ = fs.files.length := List.length_map _ _
    omega
  · intro fuel
    exact (collectWalk_visited_mono fs m fuel).1
  · intro fuel p cd visited ctx hvis
    rw [collectCodeExamplesWithContext, if_pos hvis]

/-- Witness for C2 on the concrete two-file inclusion cycle. -/
theorem c2_cycle_safety_witness :
    (collectCodeExamples cyclicFS "a.rst" "" {}).isSome ∧
    collectCodeExamplesWithContext cyclicFS 1 "a.rst" "" ["a.rst"] none {} =
      some (.ok [], ["a.rst"]) ∧
    (["a.rst"] : List String) ⊆ ["a.rst"] := by
  have hg := (c2_cycle_safety cyclicFS "a.rst" "" {}).2.2 0 "a.rst" "" ["a.rst"] none (by decide)
  exact ⟨(c2_cycle_safety cyclicFS "a.rst" "" {}).1, hg,
         ((c2_cycle_safety cyclicFS "a.rst" "" {}).2.1 1 "a.rst" "" ["a.rst"] none _ _ hg).1⟩

/-! ## C8 — error handling -/

/-- C8: an error value arises only from the entry file itself — the call was
on a not-yet-visited file whose lookup or directive parse failed, and the
branch is abandoned immediately with only that file newly marked visited
(first conjunct, with its converse as the second); a failure of an included
file is skipped silently: the include loop simply continues with the same
accumulated examples and that branch's visited marks, so the including
file's classification still completes (third conjunct). -/
theorem c8_error_handling :
    ∀ (fs : FileSystem) (m : ProductMappings),
      (∀ fuel p cd visited ctx e v',
        collectCodeExamplesWithContext fs fuel p cd visited ctx m = some (.error e, v') →
        ¬ visited.contains p = true ∧ v' = p :: visited ∧
          (lookupFile fs p = none ∨
           ∃ file, lookupFile fs p = some file ∧ file.directives = none)) ∧
      (∀ fuel p cd visited ctx, ¬ visited.contains p = true →
        (lookupFile fs p = none ∨
         ∃ file, lookupFile fs p = some file ∧ file.directives = none) →
        collectCodeExamplesWithContext fs (fuel + 1) p cd visited ctx m =
          some (.error (), p :: visited)) ∧
      (∀ fuel cd scm ctx f rest exs visited e v2,
        collectCodeExamplesWithContext fs fuel f cd visited
            (includeContextFor scm m ctx f) m = some (.error e, v2) →
        collectIncludesLoop fs fuel cd m scm ctx (f :: rest) exs visited =
          collectIncludesLoop fs fuel cd m scm ctx rest exs v2) := by
  intro fs m
  refine ⟨?_, ?_, ?_⟩
  · intro fuel p cd visited ctx e v' h
    cases fuel with
    | zero => simp [collectCodeExamplesWithContext] at h
    | succ n =>
      simp only [collectCodeExamplesWithContext] at h
      by_cases hvis : visited.contains p
      · rw [if_pos hvis] at h
        simp at h
      · rw [if_neg hvis] at h
        refine ⟨hvis, ?_⟩
        split at h
        · rename_i heq
          cases h
          exact ⟨rfl, Or.inl heq⟩
        · split at h
          · cases h
            exact ⟨rfl, Or.inr ⟨_, by assumption, by assumption⟩⟩
          · split at h
            · simp at h
            · split at h
              · cases h
              · simp at h
  · intro fuel p cd visited ctx hvis hbad
    simp only [collectCodeExamplesWithContext]
    rw [if_neg hvis]
    rcases hbad with heq | ⟨file, heq1, heq2⟩
    · simp only [heq]
    · simp only [heq1, heq2]
  · intro fuel cd scm ctx f rest exs visited e v2 h
    cases fuel with
    | zero => simp [collectCodeExamplesWithContext] at h
    | succ n =>
      rw [collectIncludesLoop, h]

/-- Witness for C8 on the concrete file system: `bad.rst` has an unparsable
directive stream; a call on it errors, and as an included branch it is
skipped while the loop continues. -/
theorem c8_error_handling_witness :
    collectCodeExamplesWithContext errFS 1 "bad.rst" "" ["a.rst"] none {} =
      some (.error (), ["bad.rst", "a.rst"]) ∧
    collectIncludesLoop errFS 1 "" {} [] none ["bad.rst", "c.rst"] [] ["a.rst"] =
      collectIncludesLoop errFS 1 "" {} [] none ["c.rst"] [] ["bad.rst", "a.rst"] ∧
    ¬ (["a.rst"] : List String).contains "bad.rst" = true := by
  have hb := (c8_error_handling errFS {}).2.1 0 "bad.rst" "" ["a.rst"] none (by decide)
    (Or.inr ⟨{ lines := [], directives := none, includes := some [] }, rfl, rfl⟩)
  refine ⟨hb, ?_, by decide⟩
  exact (c8_error_handling errFS {}).2.2 1 "" [] none "bad.rst" ["c.rst"] [] ["a.rst"] () _ hb

/-! ## C10 — duplicate inclusions -/

set_option maxHeartbeats 4000000 in
/-- Full run on the duplicate-inclusion fixture: the twice-included file's
example is emitted exactly once, classified under the selection of the
*last* inclusion marker (`javascript`), because the include-to-selector map
is overwritten per target path. -/
theorem dupIncludeFS_run :
    collectCodeExamples dupIncludeFS "a.rst" "" dupIncludeMappings =
      some (.ok [{ Etype := "code-block", Language := "python", Product := "JavaScript",
                   IsMaybeTestable := true, SourceFile := "/includes/c.rst" }],
            ["/includes/c.rst", "a.rst"]) := by
  have hfuel : canonicalFuel dupIncludeFS = 3 := rfl
  have hlkA : lookupFile dupIncludeFS "a.rst" =
      some { lines := dupIncludeLines, directives := some [],
             includes := some ["/includes/c.rst", "/includes/c.rst"] } := rfl
  have hlkC : lookupFile dupIncludeFS "/includes/c.rst" =
      some { lines := [".. code-block:: python"],
             directives := some [{ Dtype := .codeBlock, Argument := "python", LineNum := 1 }],
             includes := some [] } := rfl
  have hres : dupIncludeFS.resolveIncl = fun _ p => some p := rfl
  have hscmA : parseSelectedContentBlocks (fun p => some p) dupIncludeLines =
      [("/includes/c.rst", "javascript")] := by decide
  have hscmC : parseSelectedContentBlocks (fun p => some p) [".. code-block:: python"] = [] := by
    decide
  have hic : includeContextFor [("/includes/c.rst", "javascript")] dupIncludeMappings none
      "/includes/c.rst" = some { Language := "javascript" } := by decide
  have hproc : processDirective { Dtype := .codeBlock, Argument := "python", LineNum := 1 }
      "/includes/c.rst" "" [{ Language := "javascript" }] dupIncludeMappings =
      [{ Etype := "code-block", Language := "python", Product := "JavaScript",
         IsMaybeTestable := true, SourceFile := "/includes/c.rst" }] := by decide
  simp +decide [collectCodeExamples, hfuel, collectCodeExamplesWithContext, collectIncludesLoop,
    hlkA, hlkC, hres, hscmA, hscmC, hic, hproc, findContextForLine]

/-- C10 counterexample: the file included twice — first under selection
`python`, later under `javascript` — has its single emitted example
classified as `"JavaScript"`, not the `"Python"` the first-processed
inclusion's own selection would give: the include-to-selector map keeps only
the last marker's selection per target. -/
theorem c10_counterexample :
    (collectCodeExamples dupIncludeFS "a.rst" "" dupIncludeMappings).map
        (fun r => r.1.map (fun exs => exs.map (fun e => e.Product))) =
      some (.ok ["JavaScript"]) ∧
    ("JavaScript" : String) ≠ "Python" := by
  rw [dupIncludeFS_run]
  exact ⟨rfl, by decide⟩

/-- C10 (amended): within one top-level invocation a multiply-included file
is processed exactly once — any inclusion of an already-visited file
contributes nothing and the loop just moves on (first conjunct) — but when
the same including file lists the target under several selections, the
single emission is classified under the include-to-selector map's surviving
entry, i.e. the *last* inclusion marker's selection, not the first's
(second conjunct: the concrete duplicate-inclusion run, one example,
product `"JavaScript"`). -/
theorem c10_duplicate_inclusion :
    (∀ (fs : FileSystem) (m : ProductMappings) fuel cd scm ctx f rest exs visited,
        visited.contains f = true →
        collectIncludesLoop fs (fuel + 1) cd m scm ctx (f :: rest) exs visited =
          collectIncludesLoop fs (fuel + 1) cd m scm ctx rest exs visited) ∧
    collectCodeExamples dupIncludeFS "a.rst" "" dupIncludeMappings =
      some (.ok [{ Etype := "code-block", Language := "python", Product := "JavaScript",
                   IsMaybeTestable := true, SourceFile := "/includes/c.rst" }],
            ["/includes/c.rst", "a.rst"]) := by
  refine ⟨?_, dupIncludeFS_run⟩
  intro fs m fuel cd scm ctx f rest exs visited hvis
  rw [collectIncludesLoop]
  have hg : collectCodeExamplesWithContext fs (fuel + 1) f cd visited
      (includeContextFor scm m ctx f) m = some (.ok [], visited) := by
    rw [collectCodeExamplesWithContext, if_pos hvis]
  rw [hg]
  simp

/-- Witness for C10's amended theorem at a concrete already-visited include. -/
theorem c10_duplicate_inclusion_witness :
    collectIncludesLoop dupIncludeFS 1 "" dupIncludeMappings [] none
        ["/includes/c.rst"] [] ["/includes/c.rst", "a.rst"] =
      collectIncludesLoop dupIncludeFS 1 "" dupIncludeMappings [] none
        [] [] ["/includes/c.rst", "a.rst"] := by
  exact c10_duplicate_inclusion.1 dupIncludeFS dupIncludeMappings 0 "" [] none
    "/includes/c.rst" [] [] ["/includes/c.rst", "a.rst"] (by decide)
